import Mathlib

/-!
Verification development for the plato-feed repository.

Each Rust source construct the claims refer to is shallowly embedded as an
executable Lean definition, and the claimed properties are proved (or refuted)
about those definitions.  Machine maps (std HashMap) are modelled as
association lists with first-match lookup; timestamps (chrono DateTime used
only through ordering in db.rs) are modelled as Int; fallible Rust code
returns Except.
-/

namespace PlatoFeed

/-! ## src/db.rs — the state store

`Entry` (db.rs lines 17-21) holds an output path and a last-update time.
`JsonDatabase.feeds` is a HashMap from feed-entry id to `Entry`; we model it
as an association list with first-match lookup, HashMap-style insert
(replace the existing binding, else append) and remove. -/

structure DbEntry where
  path : String
  lastUpdate : Int
deriving DecidableEq, Repr

/-- Model of `HashMap<String, Entry>` from db.rs: an association list. -/
abbrev Feeds := List (String × DbEntry)

/-- First-match association-list lookup (model of `HashMap::get` / the lookup
performed by `HashMap::remove`). -/
def alookup {β : Type} : List (String × β) → String → Option β
  | [], _ => none
  | (k', v) :: rest, k => if k = k' then some v else alookup rest k

/-- Model of `HashMap::insert`: replace the binding if the key is present,
otherwise append it. -/
def insertF {β : Type} : List (String × β) → String → β → List (String × β)
  | [], k, v => [(k, v)]
  | (k', v') :: rest, k, v =>
      if k = k' then (k, v) :: rest else (k', v') :: insertF rest k v

/-- Model of `HashMap::remove`: drop every binding of the key. -/
def removeF {β : Type} : List (String × β) → String → List (String × β)
  | [], _ => []
  | (k', v') :: rest, k =>
      if k = k' then removeF rest k else (k', v') :: removeF rest k

/-- The four observable outcomes of one `Db::update` call (db.rs lines
55-91): the two snapshots after the call, the returned `Result<(), E>`, and
whether the `save_file` future (the `produce` closure) was awaited. -/
structure UpdOut (E : Type) where
  prevOut : Feeds
  newOut : Feeds
  result : Except E Unit
  produceInvoked : Bool

/-- The `entry => match save_file.await` arm of `Db::update` (db.rs lines
69-89): `produce` is awaited; on `Ok(path)` a fresh record is inserted with
the resolved time `updated.unwrap_or_else(Utc::now)`; on `Err`, the prior
record (if any) is re-inserted and the error is returned. -/
def dbUpdateProduce {E : Type} (prevRemoved newDb : Feeds) (id : String)
    (updated : Option Int) (now : Int) (prior : Option DbEntry)
    (saveFile : Except E String) : UpdOut E :=
  match saveFile with
  | .ok path =>
      ⟨prevRemoved, insertF newDb id ⟨path, updated.getD now⟩, .ok (), true⟩
  | .error e =>
      match prior with
      | some entry => ⟨prevRemoved, insertF newDb id entry, .error e, true⟩
      | none => ⟨prevRemoved, newDb, .error e, true⟩

/-- Model of `Db::update` (db.rs lines 55-91).  `inner.prev.feeds.remove(&id)`
removes and returns the prior record; the guard
`updated.is_none_or(|u| entry.last_update >= u)` keeps the prior record
(inserted into the new snapshot unmodified) without awaiting `save_file`;
every other case falls through to `dbUpdateProduce`. -/
def dbUpdate {E : Type} (prev newDb : Feeds) (id : String)
    (updated : Option Int) (now : Int) (saveFile : Except E String) : UpdOut E :=
  match alookup prev id with
  | some entry =>
      if updated.all (fun u => decide (u ≤ entry.lastUpdate)) then
        ⟨removeF prev id, insertF newDb id entry, .ok (), false⟩
      else
        dbUpdateProduce (removeF prev id) newDb id updated now (some entry) saveFile
  | none => dbUpdateProduce (removeF prev id) newDb id updated now none saveFile

/-! ## src/db.rs — `impl Drop for Db` (lines 94-116) -/

/-- The merge loop of `Drop::drop` (db.rs lines 105-109): every binding of the
previous snapshot whose key the new snapshot does not contain is inserted into
the new snapshot.  The containment test runs against the evolving map, exactly
as `inner.new.feeds.contains_key` does inside the loop. -/
def mergeFeeds (prev newDb : Feeds) : Feeds :=
  prev.foldl
    (fun acc kv => if (alookup acc kv.1).isSome then acc else insertF acc kv.1 kv.2)
    newDb

/-- Observable outcome of `Drop::drop` (db.rs lines 94-116). -/
inductive DropOutcome where
  | createFailed
  | serializeFailed (merged : Feeds)
  | written (merged : Feeds)
deriving DecidableEq

/-- Model of `Drop::drop` (db.rs lines 94-116): if `File::create` fails the
error is reported and the function returns; otherwise the previous snapshot is
drained into the new one (keys already present are kept) and the merged map is
serialized; a serialization error is reported and the function returns.  The
two Booleans are the oracle for the two fallible filesystem steps, and the
returned string list collects the `eprintln!` reports. -/
def dbDrop (prev newDb : Feeds) (createOk serializeOk : Bool)
    (createErr serializeErr : String) : DropOutcome × List String :=
  if createOk then
    let merged := mergeFeeds prev newDb
    if serializeOk then (.written merged, [])
    else (.serializeFailed merged, ["feed: " ++ serializeErr])
  else (.createFailed, ["feed: " ++ createErr])

/-! ### Lemmas about the association-list model -/

theorem alookup_insertF_self {β : Type} (m : List (String × β)) (k : String) (v : β) :
    alookup (insertF m k v) k = some v := by
  induction m with
  | nil => simp [insertF, alookup]
  | cons hd tl ih =>
      obtain ⟨k', v'⟩ := hd
      by_cases h : k = k'
      · simp [insertF, alookup, h]
      · simp [insertF, alookup, h, ih]

theorem alookup_insertF_other {β : Type} (m : List (String × β)) (k k' : String) (v : β)
    (h : k ≠ k') : alookup (insertF m k' v) k = alookup m k := by
  induction m with
  | nil => simp [insertF, alookup, h]
  | cons hd tl ih =>
      obtain ⟨k₁, v₁⟩ := hd
      by_cases h1 : k' = k₁
      · subst h1
        simp [insertF, alookup, h]
      · by_cases h2 : k = k₁ <;> simp [insertF, alookup, h1, h2, ih]

/-- The merge fold never changes a key it can already see. -/
theorem alookup_mergeFold {β : Type} (prev : List (String × β)) :
    ∀ (acc : List (String × β)) (k : String) (v : β), alookup acc k = some v →
      alookup (prev.foldl
        (fun acc kv => if (alookup acc kv.1).isSome then acc else insertF acc kv.1 kv.2)
        acc) k = some v := by
  induction prev with
  | nil => intro acc k v h; simpa using h
  | cons hd tl ih =>
      intro acc k v h
      simp only [List.foldl_cons]
      by_cases hmem : (alookup acc hd.1).isSome
      · rw [if_pos hmem]; exact ih acc k v h
      · rw [if_neg hmem]
        by_cases hk : k = hd.1
        · subst hk; rw [h] at hmem; simp at hmem
        · exact ih _ k v (by rw [alookup_insertF_other _ _ _ _ hk]; exact h)

theorem alookup_mergeFeeds_new (prev newDb : Feeds) (k : String) (v : DbEntry)
    (h : alookup newDb k = some v) : alookup (mergeFeeds prev newDb) k = some v :=
  alookup_mergeFold prev newDb k v h

theorem alookup_mergeFeeds_prev (prev : Feeds) :
    ∀ (newDb : Feeds) (k : String) (v : DbEntry), alookup prev k = some v →
      alookup newDb k = none → alookup (mergeFeeds prev newDb) k = some v := by
  induction prev with
  | nil => intro newDb k v h _; simp [alookup] at h
  | cons hd tl ih =>
      intro newDb k v h hnone
      obtain ⟨k₁, v₁⟩ := hd
      simp only [mergeFeeds, List.foldl_cons]
      by_cases hk : k = k₁
      · subst hk
        simp only [alookup, if_pos rfl] at h
        injection h with h; subst h
        rw [if_neg (by simp [hnone])]
        exact alookup_mergeFold tl _ k _ (alookup_insertF_self newDb k _)
      · simp only [alookup, if_neg hk] at h
        by_cases hmem : (alookup newDb k₁).isSome
        · rw [if_pos hmem]; exact ih newDb k v h hnone
        · rw [if_neg hmem]
          exact ih _ k v h (by rw [alookup_insertF_other _ _ _ _ hk]; exact hnone)

/-! ### Claim theorems for the state store -/

/-- C1.  If `Db::update` is called with an id whose record is in the
previous-run snapshot and the feed reports no update time, or the stored
last-update time is at least the reported one, then the `produce` closure
(`save_file`) is never awaited, the existing record is inserted into the new
snapshot unmodified, and the call returns `Ok(())`. -/
theorem dbUpdate_unchanged_keeps_prior {E : Type} (prev newDb : Feeds) (id : String)
    (updated : Option Int) (now : Int) (saveFile : Except E String) (entry : DbEntry)
    (hfound : alookup prev id = some entry)
    (hstale : updated = none ∨ ∃ u, updated = some u ∧ u ≤ entry.lastUpdate) :
    (dbUpdate prev newDb id updated now saveFile).produceInvoked = false ∧
    (dbUpdate prev newDb id updated now saveFile).newOut = insertF newDb id entry ∧
    (dbUpdate prev newDb id updated now saveFile).result = .ok () := by
  have hguard : updated.all (fun u => decide (u ≤ entry.lastUpdate)) = true := by
    rcases hstale with h | ⟨u, hu, hle⟩
    · subst h; rfl
    · subst hu; simpa using hle
  simp [dbUpdate, hfound, hguard]

/-- Witness for C1 at a concrete input. -/
theorem dbUpdate_unchanged_keeps_prior_witness :
    (dbUpdate (E := String) [("x", ⟨"old.epub", 7⟩)] [] "x" (some 5) 0
        (.ok "new.epub")).produceInvoked = false ∧
    (dbUpdate (E := String) [("x", ⟨"old.epub", 7⟩)] [] "x" (some 5) 0
        (.ok "new.epub")).newOut = insertF [] "x" ⟨"old.epub", 7⟩ ∧
    (dbUpdate (E := String) [("x", ⟨"old.epub", 7⟩)] [] "x" (some 5) 0
        (.ok "new.epub")).result = .ok () :=
  dbUpdate_unchanged_keeps_prior [("x", ⟨"old.epub", 7⟩)] [] "x" (some 5) 0
    (.ok "new.epub") ⟨"old.epub", 7⟩ (by decide)
    (Or.inr ⟨5, rfl, by decide⟩)

/-- C2.  When `Db::update` does invoke the `produce` closure and it fails, the
error is propagated, and the new snapshot binds the id exactly to what the
previous snapshot bound it to: the unmodified prior record when one existed,
and nothing when none existed (the new snapshot not containing the id yet, per
the once-per-entry-per-run calling discipline). -/
theorem dbUpdate_produce_failure_preserves {E : Type} (prev newDb : Feeds) (id : String)
    (updated : Option Int) (now : Int) (err : E)
    (hwould : ∀ entry, alookup prev id = some entry →
      ∃ u, updated = some u ∧ entry.lastUpdate < u)
    (hfresh : alookup newDb id = none) :
    (dbUpdate prev newDb id updated now (.error err)).result = .error err ∧
    (dbUpdate prev newDb id updated now (.error err)).produceInvoked = true ∧
    alookup (dbUpdate prev newDb id updated now (.error err)).newOut id =
      alookup prev id := by
  cases hlook : alookup prev id with
  | none =>
      simp [dbUpdate, hlook, dbUpdateProduce, hfresh]
  | some entry =>
      obtain ⟨u, hu, hlt⟩ := hwould entry hlook
      subst hu
      have hguard : (Option.some u).all (fun u => decide (u ≤ entry.lastUpdate)) = false := by
        simpa using hlt
      simp [dbUpdate, hlook, hguard, dbUpdateProduce, alookup_insertF_self]

/-- Witness for C2 at a concrete input (prior record exists, feed reports a
newer time, produce fails). -/
theorem dbUpdate_produce_failure_preserves_witness :
    (dbUpdate (E := String) [("x", ⟨"old.epub", 2⟩)] [] "x" (some 9) 0
        (.error "boom")).result = .error "boom" ∧
    (dbUpdate (E := String) [("x", ⟨"old.epub", 2⟩)] [] "x" (some 9) 0
        (.error "boom")).produceInvoked = true ∧
    alookup (dbUpdate (E := String) [("x", ⟨"old.epub", 2⟩)] [] "x" (some 9) 0
        (.error "boom")).newOut "x" = alookup [("x", ⟨"old.epub", 2⟩)] "x" :=
  dbUpdate_produce_failure_preserves [("x", ⟨"old.epub", 2⟩)] [] "x" (some 9) 0 "boom"
    (fun entry h => ⟨9, rfl, by
      have he : ({ path := "old.epub", lastUpdate := 2 } : DbEntry) = entry := by
        simpa [alookup] using h
      rw [← he]; decide⟩) rfl

/-- C7.  At drop time, every key of the previous snapshot absent from the new
snapshot is carried into the merged snapshot with its previous record, keys
already present keep their new record, and the merged snapshot is what gets
serialized; a file-creation or serialization failure produces a report and a
normal return (no artifact of a crash — the function is total). -/
theorem dbDrop_merges_and_reports (prev newDb : Feeds) (createErr serializeErr : String) :
    (∀ k v, alookup prev k = some v → alookup newDb k = none →
      alookup (mergeFeeds prev newDb) k = some v) ∧
    (∀ k v, alookup newDb k = some v →
      alookup (mergeFeeds prev newDb) k = some v) ∧
    (dbDrop prev newDb true true createErr serializeErr =
      (.written (mergeFeeds prev newDb), [])) ∧
    (dbDrop prev newDb true false createErr serializeErr =
      (.serializeFailed (mergeFeeds prev newDb), ["feed: " ++ serializeErr])) ∧
    (∀ serializeOk, dbDrop prev newDb false serializeOk createErr serializeErr =
      (.createFailed, ["feed: " ++ createErr])) := by
  refine ⟨fun k v h hn => alookup_mergeFeeds_prev prev newDb k v h hn,
    fun k v h => alookup_mergeFeeds_new prev newDb k v h, rfl, rfl, fun _ => rfl⟩

/-- Witness for C7 at a concrete input: a key only in the previous snapshot
survives the merge. -/
theorem dbDrop_merges_and_reports_witness :
    alookup (mergeFeeds [("a", ⟨"a.epub", 1⟩)] [("b", ⟨"b.epub", 2⟩)]) "a" =
      some ⟨"a.epub", 1⟩ :=
  (dbDrop_merges_and_reports [("a", ⟨"a.epub", 1⟩)] [("b", ⟨"b.epub", 2⟩)] "e1" "e2").1
    "a" ⟨"a.epub", 1⟩ rfl rfl

/-! ## src/client.rs — the network client

`Client::get` (client.rs lines 40-59) acquires a semaphore permit, then
interleaves the three fallible transport steps with three loads of the
`sigterm` flag, returning `Err(anyhow!("SIGTERM"))` as soon as a loaded flag
is true.  The permit is held for the whole call and released on every return
path (RAII drop).  We model one call as a pure function of an oracle giving
the flag value observed at each of the three loads and the success of the two
transport steps, and record the call's visible steps as an event trace. -/

inductive GetEvent where
  | acquire
  | checkSig
  | send
  | readBody
  | release
deriving DecidableEq, Repr

inductive GetResult (R : Type) where
  | ok (r : R)
  | cancelled
  | netErr
deriving DecidableEq, Repr

/-- Model of client.rs `Response` (lines 23-26). -/
structure RespM where
  contentType : Option String
  body : String
deriving DecidableEq, Repr

/-- Oracle for one `Client::get` call: the `sigterm` value at each of the
three `load(Ordering::Relaxed)` sites, whether `send` and `bytes` succeed, and
the response data on success. -/
structure GetOracle where
  sig1 : Bool
  sendOk : Bool
  sig2 : Bool
  bodyOk : Bool
  sig3 : Bool
  contentType : Option String
  body : String

/-- Model of `Client::get` (client.rs lines 40-59).  Every branch mirrors one
early return of the source; the trace ends with `release` on every path
because the permit guard is dropped on return. -/
def clientGet (o : GetOracle) : GetResult RespM × List GetEvent :=
  if o.sig1 then
    (.cancelled, [.acquire, .checkSig, .release])
  else if !o.sendOk then
    (.netErr, [.acquire, .checkSig, .send, .release])
  else if o.sig2 then
    (.cancelled, [.acquire, .checkSig, .send, .checkSig, .release])
  else if !o.bodyOk then
    (.netErr, [.acquire, .checkSig, .send, .checkSig, .readBody, .release])
  else if o.sig3 then
    (.cancelled, [.acquire, .checkSig, .send, .checkSig, .readBody, .checkSig, .release])
  else
    (.ok ⟨o.contentType, o.body⟩,
      [.acquire, .checkSig, .send, .checkSig, .readBody, .checkSig, .release])

/-- Each `checkSig` event in a trace sits immediately after the event it is a
checkpoint for: permit acquisition, header receipt (`send`), or body read. -/
def checksPlaced : List GetEvent → Bool
  | a :: b :: rest =>
      (if b = .checkSig
       then decide (a = .acquire ∨ a = .send ∨ a = .readBody)
       else true) && checksPlaced (b :: rest)
  | _ => true

/-- C6.  For every `Client::get` call: at most three cancellation checks
happen, each immediately after acquiring the permit, after receiving the
headers, or after reading the body; on the fully successful path exactly three
checks happen and the response is returned; if the flag is set at any reached
checkpoint the call returns the cancellation error (which carries no
response); and every path ends by releasing the permit. -/
theorem clientGet_checkpoints (o : GetOracle) :
    ((clientGet o).2.count .checkSig ≤ 3) ∧
    ((clientGet o).2.head? = some .acquire ∧ checksPlaced (clientGet o).2 = true) ∧
    ((clientGet o).2.getLast? = some .release) ∧
    (o.sig1 = false → o.sendOk = true → o.sig2 = false → o.bodyOk = true →
      o.sig3 = false →
      (clientGet o).2.count .checkSig = 3 ∧
      (clientGet o).1 = .ok ⟨o.contentType, o.body⟩) ∧
    ((o.sig1 = true ∨ (o.sendOk = true ∧ o.sig2 = true) ∨
        (o.sendOk = true ∧ o.bodyOk = true ∧ o.sig3 = true)) →
      (clientGet o).1 = .cancelled) := by
  obtain ⟨s1, sd, s2, bd, s3, ct, b⟩ := o
  cases s1 <;> cases sd <;> cases s2 <;> cases bd <;> cases s3 <;>
    simp [clientGet, checksPlaced, List.count_cons, List.count_nil]

/-- Witness for C6 at a concrete oracle: flag set between headers and body
read cancels the call after two checks. -/
theorem clientGet_checkpoints_witness :
    (clientGet ⟨false, true, true, true, false, none, "payload"⟩).1 =
      GetResult.cancelled ∧
    (clientGet ⟨false, true, true, true, false, none, "payload"⟩).2.getLast? =
      some GetEvent.release :=
  ⟨(clientGet_checkpoints ⟨false, true, true, true, false, none, "payload"⟩).2.2.2.2
      (Or.inr (Or.inl ⟨rfl, rfl⟩)),
   (clientGet_checkpoints ⟨false, true, true, true, false, none, "payload"⟩).2.2.1⟩

/-! ## SHA-2 (model of the `sha2` crate used by feed.rs / main.rs)

feed.rs line 108-110 and main.rs line 210-212 hash the entry id with
`Sha224` and render the digest with `{:x}` (two lowercase hex digits per
byte).  The spec sentence under test instead names sha256, so both FIPS 180-4
functions are implemented here, over Nat with explicit mod 2^32 arithmetic. -/

def w32 (x : Nat) : Nat := x % 4294967296

/-- Bitwise xor of the low `k` bits, by binary recursion. -/
def bitXor32 : Nat → Nat → Nat → Nat
  | 0, _, _ => 0
  | k+1, a, b => (if a % 2 = b % 2 then 0 else 1) + 2 * bitXor32 k (a / 2) (b / 2)

def xor32 (a b : Nat) : Nat := bitXor32 32 a b

/-- Bitwise and of the low `k` bits, by binary recursion. -/
def bitAnd32 : Nat → Nat → Nat → Nat
  | 0, _, _ => 0
  | k+1, a, b => (a % 2) * (b % 2) + 2 * bitAnd32 k (a / 2) (b / 2)

def and32 (a b : Nat) : Nat := bitAnd32 32 a b

def not32 (a : Nat) : Nat := 4294967295 - a

/-- 32-bit right rotation of `x` (assumed < 2^32) by `n`. -/
def rotr (n x : Nat) : Nat := x / 2 ^ n + x % 2 ^ n * 2 ^ (32 - n)

def shr (n x : Nat) : Nat := x / 2 ^ n

def smallSigma0 (x : Nat) : Nat := xor32 (xor32 (rotr 7 x) (rotr 18 x)) (shr 3 x)

def smallSigma1 (x : Nat) : Nat := xor32 (xor32 (rotr 17 x) (rotr 19 x)) (shr 10 x)

def bigSigma0 (x : Nat) : Nat := xor32 (xor32 (rotr 2 x) (rotr 13 x)) (rotr 22 x)

def bigSigma1 (x : Nat) : Nat := xor32 (xor32 (rotr 6 x) (rotr 11 x)) (rotr 25 x)

def chFn (e f g : Nat) : Nat := xor32 (and32 e f) (and32 (not32 e) g)

def majFn (a b c : Nat) : Nat := xor32 (xor32 (and32 a b) (and32 a c)) (and32 b c)

/-- The 64 SHA-2 round constants of FIPS 180-4, written in decimal. -/
def kConst : List Nat :=
  [1116352408, 1899447441, 3049323471, 3921009573, 961987163,
   1508970993, 2453635748, 2870763221, 3624381080, 310598401,
   607225278, 1426881987, 1925078388, 2162078206, 2614888103,
   3248222580, 3835390401, 4022224774, 264347078, 604807628,
   770255983, 1249150122, 1555081692, 1996064986, 2554220882,
   2821834349, 2952996808, 3210313671, 3336571891, 3584528711,
   113926993, 338241895, 666307205, 773529912, 1294757372,
   1396182291, 1695183700, 1986661051, 2177026350, 2456956037,
   2730485921, 2820302411, 3259730800, 3345764771, 3516065817,
   3600352804, 4094571909, 275423344, 430227734, 506948616,
   659060556, 883997877, 958139571, 1322822218, 1537002063,
   1747873779, 1955562222, 2024104815, 2227730452, 2361852424,
   2428436474, 2756734187, 3204031479, 3329325298]

/-- SHA-256 initial hash value (FIPS 180-4), in decimal. -/
def iv256 : List Nat :=
  [1779033703, 3144134277, 1013904242, 2773480762,
   1359893119, 2600822924, 528734635, 1541459225]

/-- SHA-224 initial hash value (FIPS 180-4), in decimal. -/
def iv224 : List Nat :=
  [3238371032, 914150663, 812702999, 4144912697,
   4290775857, 1750603025, 1694076839, 3204075428]

/-- One message-schedule extension step; the head of the (reversed) schedule
is the newest word. -/
def scheduleStep (rw : List Nat) : List Nat :=
  w32 (smallSigma1 (rw.getD 1 0) + rw.getD 6 0 +
    smallSigma0 (rw.getD 14 0) + rw.getD 15 0) :: rw

def iterApp {α : Type} (f : α → α) : Nat → α → α
  | 0, a => a
  | n+1, a => iterApp f n (f a)

def mkSchedule (block : List Nat) : List Nat :=
  (iterApp scheduleStep 48 block.reverse).reverse

/-- One SHA-2 compression round on the working state [a,b,c,d,e,f,g,h]. -/
def shaRound (kw : Nat × Nat) (st : List Nat) : List Nat :=
  match st with
  | [a, b, c, d, e, f, g, h] =>
      let t1 := w32 (h + bigSigma1 e + chFn e f g + kw.1 + kw.2)
      let t2 := w32 (bigSigma0 a + majFn a b c)
      [w32 (t1 + t2), a, b, c, w32 (d + t1), e, f, g]
  | st => st

def compressBlock (hs block : List Nat) : List Nat :=
  let ws := mkSchedule block
  let fin := (kConst.zip ws).foldl (fun st kw => shaRound kw st) hs
  List.zipWith (fun a b => w32 (a + b)) hs fin

def bytesToWords : List Nat → List Nat
  | b0 :: b1 :: b2 :: b3 :: rest =>
      (b0 * 16777216 + b1 * 65536 + b2 * 256 + b3) :: bytesToWords rest
  | _ => []

def chunk16 : List Nat → List (List Nat)
  | w0 :: w1 :: w2 :: w3 :: w4 :: w5 :: w6 :: w7 ::
    w8 :: w9 :: w10 :: w11 :: w12 :: w13 :: w14 :: w15 :: rest =>
      [w0, w1, w2, w3, w4, w5, w6, w7, w8, w9, w10, w11, w12, w13, w14, w15] ::
        chunk16 rest
  | _ => []

def be64 (n : Nat) : List Nat :=
  [(n / 2 ^ 56) % 256, (n / 2 ^ 48) % 256, (n / 2 ^ 40) % 256, (n / 2 ^ 32) % 256,
   (n / 2 ^ 24) % 256, (n / 2 ^ 16) % 256, (n / 2 ^ 8) % 256, n % 256]

/-- FIPS 180-4 padding: 0x80, zeros to 56 mod 64, 64-bit big-endian length. -/
def padMessage (msg : List Nat) : List Nat :=
  let z := (64 - (msg.length + 9) % 64) % 64
  msg ++ [128] ++ List.replicate z 0 ++ be64 (8 * msg.length)

def digestWords (iv : List Nat) (msg : List Nat) : List Nat :=
  (chunk16 (bytesToWords (padMessage msg))).foldl compressBlock iv

def hexDigit (n : Nat) : Char := if n < 10 then Char.ofNat (48 + n) else Char.ofNat (87 + n)

def hexByte (b : Nat) : String := String.mk [hexDigit (b / 16), hexDigit (b % 16)]

def wordBytes (w : Nat) : List Nat :=
  [(w / 2 ^ 24) % 256, (w / 2 ^ 16) % 256, (w / 2 ^ 8) % 256, w % 256]

def hexOfWords (ws : List Nat) : String :=
  String.join ((ws.map wordBytes).flatten.map hexByte)

/-- UTF-8 encoding of one scalar value. -/
def charUtf8 (c : Char) : List Nat :=
  let n := c.toNat
  if n < 128 then [n]
  else if n < 2048 then [192 + n / 64, 128 + n % 64]
  else if n < 65536 then [224 + n / 4096, 128 + (n / 64) % 64, 128 + n % 64]
  else [240 + n / 262144, 128 + (n / 4096) % 64, 128 + (n / 64) % 64, 128 + n % 64]

def utf8Bytes (s : String) : List Nat := (s.toList.map charUtf8).flatten

/-- Lowercase-hex SHA-256 of a string, as `format!("\x7b:x\x7d", ...)` renders it. -/
def sha256Hex (s : String) : String := hexOfWords (digestWords iv256 (utf8Bytes s))

/-- Lowercase-hex SHA-224 of a string (truncated to seven words). -/
def sha224Hex (s : String) : String := hexOfWords ((digestWords iv224 (utf8Bytes s)).take 7)

/-! ## feed.rs `load_entry` — filename computation (lines 90-111; the same
code appears at main.rs lines 192-213) -/

/-- Model of a chrono UTC date-time, carrying the calendar fields that the
`%Y-%m-%dT%H:%M:%S` format string reads. -/
structure UtcDateTime where
  year : Nat
  month : Nat
  day : Nat
  hour : Nat
  minute : Nat
  second : Nat
deriving DecidableEq, Repr

def pad2 (n : Nat) : String := if n < 10 then "0" ++ toString n else toString n

def pad4 (n : Nat) : String :=
  (if n < 10 then "000" else if n < 100 then "00" else if n < 1000 then "0" else "")
    ++ toString n

/-- Model of `date.format("%Y-%m-%dT%H:%M:%S")` (feed.rs line 92). -/
def formatTimestamp (d : UtcDateTime) : String :=
  pad4 d.year ++ "-" ++ pad2 d.month ++ "-" ++ pad2 d.day ++ "T" ++
    pad2 d.hour ++ ":" ++ pad2 d.minute ++ ":" ++ pad2 d.second

/-- Model of `str::join` on a `Vec<String>`. -/
def joinWith (sep : String) : List String → String
  | [] => ""
  | [s] => s
  | s :: rest => s ++ sep ++ joinWith sep rest

/-- Modelled from the `slugify` crate (external dependency, not in src/):
lowercase, replace non-alphanumeric runs with a single dash, trim dashes at
both ends, truncate to `max_length = 32` and re-trim a trailing dash. -/
def dedupDash : List Char → List Char
  | [] => []
  | c :: rest =>
      let tl := dedupDash rest
      if c = '-' then
        match tl with
        | '-' :: _ => tl
        | _ => c :: tl
      else c :: tl

def trimDashEnds (l : List Char) : List Char :=
  ((l.dropWhile (fun c => c = '-')).reverse.dropWhile (fun c => c = '-')).reverse

def slugify32 (s : String) : String :=
  let mapped := s.toList.map (fun c => if c.isAlphanum then c.toLower else '-')
  let base := (trimDashEnds (dedupDash mapped)).take 32
  String.mk (base.reverse.dropWhile (fun c => c = '-')).reverse

/-- Model of the filename computation in `load_entry` (feed.rs lines 90-111):
push the formatted published date when present, push the slugified title when
present, push the lowercase-hex SHA-224 of the entry id with the `.epub`
suffix, join the pieces with an underscore and join onto the save directory. -/
def codeFilename (savePath : String) (published : Option UtcDateTime)
    (title : Option String) (id : String) : String :=
  let parts : List String := []
  let parts := match published with
    | some d => parts ++ [formatTimestamp d]
    | none => parts
  let parts := match title with
    | some t => parts ++ [slugify32 t]
    | none => parts
  let parts := parts ++ [sha224Hex id ++ ".epub"]
  savePath ++ "/" ++ joinWith "_" parts

/-- The filename the claim under test describes, written from its words:
the timestamp, a dash, the lowercase-hex SHA-256 of the entry id, `.epub`,
joined to the per-server save directory. -/
def claimFilename (savePath : String) (ts : UtcDateTime) (id : String) : String :=
  savePath ++ "/" ++ formatTimestamp ts ++ "-" ++ sha256Hex id ++ ".epub"

set_option maxRecDepth 1000000 in
/-- C5 counterexample.  For a concrete entry (published
2024-01-02T03:04:05, no title, id "entry-1") the filename the code computes
differs from the one the claim describes: the code hashes with SHA-224, not
SHA-256, and joins the pieces with an underscore, not a dash. -/
theorem codeFilename_ne_claimFilename :
    codeFilename "save" (some ⟨2024, 1, 2, 3, 4, 5⟩) none "entry-1" ≠
      claimFilename "save" ⟨2024, 1, 2, 3, 4, 5⟩ "entry-1" := by decide

/-- The amended filename scheme, written from the amended claim: the
underscore-join of the formatted published date (when present), the slugified
title (when present) and the lowercase-hex SHA-224 of the entry id with the
`.epub` suffix, joined to the per-server save directory. -/
def amendedFilename (savePath : String) (published : Option UtcDateTime)
    (title : Option String) (id : String) : String :=
  savePath ++ "/" ++
    (match published with
     | some d => formatTimestamp d ++ "_"
     | none => "") ++
    (match title with
     | some t => slugify32 t ++ "_"
     | none => "") ++
    (sha224Hex id ++ ".epub")

/-- C5 amended.  The output filename is
`\x7btimestamp\x7d_\x7btitle-slug\x7d_\x7bhex(sha224(entryId))\x7d.epub` —
timestamp and slug segments present exactly when the entry has a published
date resp. a title — joined to the per-server save directory; being a pure
function of those entry fields, re-processing an unchanged entry reproduces
the same path. -/
theorem codeFilename_eq_amendedFilename (savePath : String)
    (published : Option UtcDateTime) (title : Option String) (id : String) :
    codeFilename savePath published title id =
      amendedFilename savePath published title id := by
  cases published <;> cases title <;>
    simp [codeFilename, amendedFilename, joinWith, String.append_assoc,
      String.empty_append]

/-! ## feed.rs `download_full_article` — link selection (lines 175-201) -/

structure LinkM where
  href : String
  mediaType : Option String
deriving DecidableEq, Repr

/-- Substring test: model of Rust `str::contains` with a literal pattern. -/
def strContainsSub (s pat : String) : Bool :=
  (List.range (s.toList.length + 1)).any
    (fun i => pat.toList.isPrefixOf (s.toList.drop i))

/-- Model of the link selection in `download_full_article` (feed.rs lines
180-190), exactly as written: the first `find` tests
`l.media_type.as_ref().map(|mt| mt.contains("html")).is_some()` — the result
of `contains` is discarded by `is_some`, so it accepts any link with a
declared media type; then the first link without a media type; then the first
link. -/
def chooseLink (links : List LinkM) : Option LinkM :=
  match links.find?
      (fun l => ((l.mediaType.map (fun mt => strContainsSub mt "html")).isSome)) with
  | some l => some l
  | none =>
      match links.find? (fun l => l.mediaType.isNone) with
      | some l => some l
      | none => links.head?

/-- The selection the claim (and the code's evident intent) describes: the
first link whose declared media type contains "html"; else the first link
with no declared media type; else the first link. -/
def chooseLinkSpec (links : List LinkM) : Option LinkM :=
  match links.find?
      (fun l => match l.mediaType with
        | some mt => strContainsSub mt "html"
        | none => false) with
  | some l => some l
  | none =>
      match links.find? (fun l => l.mediaType.isNone) with
      | some l => some l
      | none => links.head?

/-- Model of the selection-and-error step of `download_full_article`
(feed.rs line 190): an empty selection is the hard `No link to download`
failure. -/
def downloadLinkChoice (links : List LinkM) : Except String LinkM :=
  match chooseLink links with
  | some l => .ok l
  | none => .error "No link to download"

/-- C3 evaluation.  On a feed entry whose first link declares `image/png` and
whose second declares `text/html`, the code picks the png link (its first
`find` accepts any link with a declared media type because the result of
`contains("html")` is discarded by `.is_some()`), while the claimed tie-break
picks the html link; the empty-list hard failure does hold. -/
theorem chooseLink_ignores_contains_html :
    chooseLink [⟨"http://ex.org/cover.png", some "image/png"⟩,
                ⟨"http://ex.org/article", some "text/html"⟩] =
      some ⟨"http://ex.org/cover.png", some "image/png"⟩ ∧
    chooseLinkSpec [⟨"http://ex.org/cover.png", some "image/png"⟩,
                    ⟨"http://ex.org/article", some "text/html"⟩] =
      some ⟨"http://ex.org/article", some "text/html"⟩ ∧
    downloadLinkChoice [] = .error "No link to download" :=
  ⟨by decide, by decide, rfl⟩

/-! ## feed.rs `load_entry` — author computation (lines 85-88) -/

/-- Model of feed.rs lines 85-86: every author name of the entry (empty or
not) joined with a comma and space.  No other value is consulted. -/
def computedAuthor (authorNames : List String) : String :=
  joinWith ", " authorNames

/-- The author string the claim (and the `default_author` documentation at
settings.rs lines 175-179) describes: join the non-empty names; when that is
empty fall back to the configured default author (an explicitly empty default
suppressing authorship), and with no configured default fall back to the
publisher. -/
def claimAuthor (authorNames : List String) (defaultAuthor : Option String)
    (publisher : String) : String :=
  let joined := joinWith ", " (authorNames.filter (fun s => s ≠ ""))
  if joined = "" then
    match defaultAuthor with
    | some d => d
    | none => publisher
  else joined

/-- C4 evaluation.  For an entry with no authors under an instance whose
configured default author is "Alice", the code computes the empty author
string — `load_entry` never reads `default_author` or the publisher — while
the claim requires "Alice". -/
theorem computedAuthor_ignores_default_author :
    computedAuthor [] = "" ∧
    claimAuthor [] (some "Alice") "Publisher" = "Alice" ∧
    computedAuthor [] ≠ claimAuthor [] (some "Alice") "Publisher" := by decide

/-! ## html.rs `clean_html` — image embedding map and final rewrite pass
(html.rs lines 137-190; feed.rs lines 249-302 are the same code)

The per-image pipeline (spawn, join, `load_img`, mime/extension resolution,
`builder.add_resource`) is summarised per collected URL by a `FetchOutcome`:
the task join can fail, the fetch can fail, resource registration can fail, or
everything succeeds with a resolved extension string.  The map built at
html.rs lines 146-178 keys each successfully embedded URL (its `to_string`)
to its artifact-local resource path `\x7bi\x7d.\x7bext\x7d` where `i` is the
position in the original collection order.  The final pass (lines 180-189)
replaces each matched image tag via the map, an absent key producing the
empty replacement. -/

inductive FetchOutcome where
  | joinFail
  | fetchFail
  | addFail (ext : String)
  | ok (ext : String)
deriving DecidableEq, Repr

/-- Model of the map construction at html.rs lines 146-178: enumerate the
per-URL outcomes in collection order; only a fully successful outcome
contributes a binding from the URL to `\x7bi\x7d.\x7bext\x7d`. -/
def buildImgMap (results : List (String × FetchOutcome)) : List (String × String) :=
  results.enum.filterMap
    (fun p => match p.2.2 with
      | .ok ext => some (p.2.1, toString p.1 ++ "." ++ ext)
      | _ => none)

/-- The (narrowed) markup as the image regex sees it: literal text
interleaved with image tags that carry a double-quoted src attribute (the
only form `IMG_REGEX` matches). -/
inductive HtmlTok where
  | text (s : String)
  | img (src : String)
deriving DecidableEq, Repr

/-- Model of the final rewrite pass (html.rs lines 180-189): each image tag
whose src is bound in the map becomes the minimal image tag referencing the
bound resource path; an unbound src produces the empty string
(`unwrap_or_default`); all other markup is left alone. -/
def rewriteImgs (m : List (String × String)) : List HtmlTok → List HtmlTok
  | [] => []
  | .text s :: rest => .text s :: rewriteImgs m rest
  | .img src :: rest =>
      match alookup m src with
      | some p => .img p :: rewriteImgs m rest
      | none => rewriteImgs m rest

theorem alookup_mem {β : Type} (m : List (String × β)) (k : String) (v : β)
    (h : alookup m k = some v) : (k, v) ∈ m := by
  induction m with
  | nil => simp [alookup] at h
  | cons hd tl ih =>
      obtain ⟨k', v'⟩ := hd
      by_cases hk : k = k'
      · subst hk
        simp only [alookup, if_pos rfl] at h
        injection h with h
        subst h
        exact List.mem_cons_self _ _
      · simp only [alookup, if_neg hk] at h
        exact List.mem_cons_of_mem _ (ih h)

theorem mem_buildImgMap (results : List (String × FetchOutcome)) (url p : String)
    (h : (url, p) ∈ buildImgMap results) :
    ∃ (i : Nat) (ext : String), results[i]? = some (url, FetchOutcome.ok ext) ∧
      p = toString i ++ "." ++ ext := by
  simp only [buildImgMap, List.mem_filterMap] at h
  obtain ⟨⟨i, u, o⟩, hmem, hmatch⟩ := h
  cases o with
  | ok ext =>
      simp only at hmatch
      injection hmatch with h1
      have hu : u = url := congrArg Prod.fst h1
      have hp : toString i ++ "." ++ ext = p := congrArg Prod.snd h1
      subst hu
      subst hp
      refine ⟨i, ext, ?_, rfl⟩
      simpa using List.mem_enum_iff_getElem?.mp hmem
  | joinFail => simp at hmatch
  | fetchFail => simp at hmatch
  | addFail ext => simp at hmatch

/-- C8.  The final rewrite pass maps each token of the markup independently:
an image tag whose src is a successfully embedded URL becomes the minimal
image tag holding that URL's registered resource path, an image tag whose src
was never embedded becomes nothing, and other markup survives unchanged; in
particular every image tag in the output holds a registered resource path
`\x7bi\x7d.\x7bext\x7d` coming from the i-th collected URL's successful
outcome, so none retains its original remote src. -/
theorem rewriteImgs_spec (results : List (String × FetchOutcome)) (toks : List HtmlTok) :
    rewriteImgs (buildImgMap results) toks =
      toks.filterMap (fun t => match t with
        | .text s => some (.text s)
        | .img src => (alookup (buildImgMap results) src).map HtmlTok.img) ∧
    (∀ s, HtmlTok.img s ∈ rewriteImgs (buildImgMap results) toks →
      ∃ (i : Nat) (url ext : String),
        results[i]? = some (url, FetchOutcome.ok ext) ∧
        alookup (buildImgMap results) url = some s ∧
        s = toString i ++ "." ++ ext) := by
  constructor
  · induction toks with
    | nil => simp [rewriteImgs]
    | cons hd tl ih =>
        cases hd with
        | text s => simp [rewriteImgs, ih]
        | img src =>
            cases hlook : alookup (buildImgMap results) src <;>
              simp [rewriteImgs, hlook, ih]
  · intro s hs
    induction toks with
    | nil => simp [rewriteImgs] at hs
    | cons hd tl ih =>
        cases hd with
        | text t =>
            simp only [rewriteImgs, List.mem_cons] at hs
            rcases hs with h | h
            · exact absurd h (by simp)
            · exact ih h
        | img src =>
            cases hlook : alookup (buildImgMap results) src with
            | none =>
                rw [rewriteImgs, hlook] at hs
                exact ih hs
            | some p =>
                rw [rewriteImgs, hlook] at hs
                rcases List.mem_cons.mp hs with h | h
                · injection h with h
                  subst h
                  obtain ⟨i, ext, hget, hp⟩ :=
                    mem_buildImgMap results src s (alookup_mem _ _ _ hlook)
                  exact ⟨i, src, ext, hget, hlook, hp⟩
                · exact ih h

/-- Witness for C8 at a concrete input: one fetched image, one failed image,
one unembedded src and surrounding text. -/
theorem rewriteImgs_spec_witness :
    rewriteImgs (buildImgMap [("http://ex.org/a.png", .ok "png"),
        ("http://ex.org/b.png", .fetchFail)])
      [.text "<p>x</p>", .img "http://ex.org/a.png", .img "http://ex.org/b.png",
       .img "http://ex.org/c.png"] =
      [.text "<p>x</p>", .img "0.png"] :=
  (rewriteImgs_spec [("http://ex.org/a.png", .ok "png"),
      ("http://ex.org/b.png", .fetchFail)]
    [.text "<p>x</p>", .img "http://ex.org/a.png", .img "http://ex.org/b.png",
     .img "http://ex.org/c.png"]).1.trans (by decide)

/-! ## html.rs `clean_html` — noise removal and narrowing (lines 88-129)

The parsed document is a forest of nodes.  `CLEAR_SELECTOR` (html.rs lines
16-27) selects the eight noise tags; the matched elements are detached from
the tree (lines 90-99) before the optional narrowing step (lines 101-119)
runs.  CSS selector matching is abstracted as an arbitrary Boolean predicate
on nodes — the caller-supplied `filter_element` selector (when it parses) is
tried ahead of the fixed fallback list, and the first selector matching any
element narrows the document to that element. -/

inductive HNode where
  | text (s : String)
  | elem (tag : String) (attrs : List (String × String)) (children : List HNode)
deriving Repr

/-- The fixed noise set of `CLEAR_SELECTOR` (html.rs lines 16-27). -/
def clearTags : List String :=
  ["br", "form", "hr", "iframe", "input", "script", "source", "style"]

mutual

/-- Detaching pass over one node: a node whose tag is in the noise set is
removed (with its subtree); other nodes keep their filtered children. -/
def removeCleared : HNode → Option HNode
  | .text s => some (.text s)
  | .elem tag attrs cs =>
      if tag ∈ clearTags then none
      else some (.elem tag attrs (removeClearedList cs))

def removeClearedList : List HNode → List HNode
  | [] => []
  | n :: rest =>
      match removeCleared n with
      | some m => m :: removeClearedList rest
      | none => removeClearedList rest

end

mutual

/-- Decidable check that no element of the noise set occurs in a subtree. -/
def noClear : HNode → Bool
  | .text _ => true
  | .elem tag _ cs => decide (tag ∉ clearTags) && noClearList cs

def noClearList : List HNode → Bool
  | [] => true
  | n :: rest => noClear n && noClearList rest

end

mutual

/-- First node (document order) matched by a selector predicate: model of
`doc.select(filter).next()`. -/
def findNode (p : HNode → Bool) : HNode → Option HNode
  | .text s => if p (.text s) then some (.text s) else none
  | .elem tag attrs cs =>
      if p (.elem tag attrs cs) then some (.elem tag attrs cs)
      else findNodeList p cs

def findNodeList (p : HNode → Bool) : List HNode → Option HNode
  | [] => none
  | n :: rest =>
      match findNode p n with
      | some m => some m
      | none => findNodeList p rest

end

/-- The selector cascade of html.rs lines 102-118: try each selector in
order, the first one matching any element wins. -/
def tryFiltersDoc (doc : List HNode) : List (HNode → Bool) → Option HNode
  | [] => none
  | p :: ps =>
      match findNodeList p doc with
      | some e => some e
      | none => tryFiltersDoc doc ps

/-- Model of the structural part of html.rs `clean_html` (lines 88-129): the
noise elements are detached first, unconditionally; then, only when
`enable_filter` is set, the parsed `filter_element` selector (when present)
chained with the fixed fallback list narrows the document to the first
matching element, the whole cleared document standing when nothing matches. -/
def cleanDocStructure (enableFilter : Bool) (customFilter : Option (HNode → Bool))
    (fallback : List (HNode → Bool)) (doc : List HNode) : List HNode :=
  let cleared := removeClearedList doc
  if enableFilter then
    match tryFiltersDoc cleared (customFilter.toList ++ fallback) with
    | some e => [e]
    | none => cleared
  else cleared

mutual

theorem removeCleared_noClear : ∀ (n : HNode) (m : HNode),
    removeCleared n = some m → noClear m = true
  | .text s, m, h => by
      simp [removeCleared] at h
      subst h
      simp [noClear]
  | .elem tag attrs cs, m, h => by
      by_cases htag : tag ∈ clearTags
      · simp [removeCleared, htag] at h
      · simp only [removeCleared, if_neg htag] at h
        injection h with h
        subst h
        simp only [noClear, Bool.and_eq_true, decide_eq_true_eq]
        exact ⟨htag, removeClearedList_noClear cs⟩

theorem removeClearedList_noClear : ∀ (l : List HNode),
    noClearList (removeClearedList l) = true
  | [] => by simp [removeClearedList, noClearList]
  | n :: rest => by
      cases hr : removeCleared n with
      | none =>
          simp only [removeClearedList, hr]
          exact removeClearedList_noClear rest
      | some m =>
          simp only [removeClearedList, hr, noClearList, Bool.and_eq_true]
          exact ⟨removeCleared_noClear n m hr, removeClearedList_noClear rest⟩

end

mutual

theorem findNode_noClear : ∀ (p : HNode → Bool) (n : HNode), noClear n = true →
    ∀ e, findNode p n = some e → noClear e = true
  | p, .text s, hn, e, h => by
      simp only [findNode] at h
      split at h
      · injection h with h; subst h; exact hn
      · exact absurd h (by simp)
  | p, .elem tag attrs cs, hn, e, h => by
      simp only [findNode] at h
      split at h
      · injection h with h; subst h; exact hn
      · have hcs : noClearList cs = true := by
          simp only [noClear, Bool.and_eq_true] at hn
          exact hn.2
        exact findNodeList_noClear p cs hcs e h

theorem findNodeList_noClear : ∀ (p : HNode → Bool) (l : List HNode),
    noClearList l = true → ∀ e, findNodeList p l = some e → noClear e = true
  | p, [], hl, e, h => by simp [findNodeList] at h
  | p, n :: rest, hl, e, h => by
      have hn : noClear n = true ∧ noClearList rest = true := by
        simpa [noClearList, Bool.and_eq_true] using hl
      cases hf : findNode p n with
      | some m =>
          rw [findNodeList, hf] at h
          injection h with h; subst h
          exact findNode_noClear p n hn.1 _ hf
      | none =>
          rw [findNodeList, hf] at h
          exact findNodeList_noClear p rest hn.2 e h

end

theorem tryFiltersDoc_noClear (doc : List HNode) (hdoc : noClearList doc = true) :
    ∀ (filters : List (HNode → Bool)) (e : HNode),
      tryFiltersDoc doc filters = some e → noClear e = true := by
  intro filters
  induction filters with
  | nil => intro e h; simp [tryFiltersDoc] at h
  | cons p ps ih =>
      intro e h
      cases hf : findNodeList p doc with
      | some m =>
          rw [tryFiltersDoc, hf] at h
          injection h with h; subst h
          exact findNodeList_noClear p doc hdoc _ hf
      | none =>
          rw [tryFiltersDoc, hf] at h
          exact ih e h

/-- C9.  For every input document and every combination of the filter
settings (`enable_filter` on or off, any parsed `filter_element` selector,
any fallback selector list), the document `clean_html` hands to the rest of
the pipeline contains no br, form, hr, iframe, input, script, source or style
element: the noise elements are detached before the narrowing step, and
narrowing can only select a subtree of the already-cleared document. -/
theorem cleanDocStructure_removes_noise (enableFilter : Bool)
    (customFilter : Option (HNode → Bool)) (fallback : List (HNode → Bool))
    (doc : List HNode) :
    noClearList (cleanDocStructure enableFilter customFilter fallback doc) = true := by
  cases enableFilter with
  | false => simpa [cleanDocStructure] using removeClearedList_noClear doc
  | true =>
      simp only [cleanDocStructure]
      cases ht : tryFiltersDoc (removeClearedList doc) (customFilter.toList ++ fallback) with
      | none => simpa using removeClearedList_noClear doc
      | some e =>
          simp only [noClearList, Bool.and_eq_true]
          exact ⟨tryFiltersDoc_noClear (removeClearedList doc)
            (removeClearedList_noClear doc) _ e ht, trivial⟩

/-! ## feed.rs `load_entry` — per-entry processing (lines 73-172)

`load_entry` computes the output filename (lines 90-111), returns `Ok(())`
as soon as the file exists (lines 112-114), and only otherwise selects a
content source (lines 118-143), fetches, writes the artifact file (lines
153-154) and prints the completion event (lines 155-171).  Its observable
side effects are modelled as a trace; the image fetches performed inside
`clean_html` are summarised by an oracle trace, and a second oracle Boolean
stands for the success of the artifact file write. -/

inductive EntryEffect where
  | fetch (url : String)
  | writeFile (path : String)
  | emitEvent
deriving DecidableEq, Repr

/-- The `feed_rs::model::Entry` fields `load_entry` reads, plus the feed's
reported update time (which `load_entry` never reads — db.rs consumes it). -/
structure FeedEntryM where
  id : String
  published : Option UtcDateTime
  updated : Option Int
  title : Option String
  links : List LinkM
  contentBody : Option String
  summary : Option String

/-- Model of `load_entry` (feed.rs lines 73-172) at the granularity of its
side effects: filename computation and existence short-circuit, then the
content-source policy of lines 118-143 (forced full article; inline body;
forced-never with no body failing; fallback full article), each
non-short-circuited path fetching as needed, writing the artifact and
emitting the completion event. -/
def loadEntry (savePath : String) (fileExists : String → Bool)
    (downloadFull : Option Bool) (imgFetches : List EntryEffect) (writeOk : Bool)
    (e : FeedEntryM) : Except String Unit × List EntryEffect :=
  let filename := codeFilename savePath e.published e.title e.id
  if fileExists filename then (.ok (), [])
  else
    match downloadFull, e.contentBody with
    | some true, _ =>
        (match chooseLink e.links with
         | none => (.error "No link to download", [])
         | some l =>
             if writeOk then
               (.ok (), .fetch l.href :: (imgFetches ++ [.writeFile filename, .emitEvent]))
             else
               (.error "write failed", .fetch l.href :: (imgFetches ++ [.writeFile filename])))
    | _, some _ =>
        if writeOk then (.ok (), imgFetches ++ [.writeFile filename, .emitEvent])
        else (.error "write failed", imgFetches ++ [.writeFile filename])
    | some false, none => (.error "No content", [])
    | none, none =>
        (match chooseLink e.links with
         | none => (.error "No link to download", [])
         | some l =>
             if writeOk then
               (.ok (), .fetch l.href :: (imgFetches ++ [.writeFile filename, .emitEvent]))
             else
               (.error "write failed", .fetch l.href :: (imgFetches ++ [.writeFile filename])))

/-- C10.  Whenever the computed output path already exists, `load_entry`
returns success with an empty effect trace — no fetch, no file write, no
completion event — for every entry (in particular for every reported update
time, which `load_entry` never consults) and every policy setting. -/
theorem loadEntry_skips_existing (savePath : String) (fileExists : String → Bool)
    (downloadFull : Option Bool) (imgFetches : List EntryEffect) (writeOk : Bool)
    (e : FeedEntryM)
    (h : fileExists (codeFilename savePath e.published e.title e.id) = true) :
    loadEntry savePath fileExists downloadFull imgFetches writeOk e = (.ok (), []) := by
  simp [loadEntry, h]

/-- Witness for C10 at a concrete input: the file reported as existing, a
newer feed update time, a forced-full-article policy. -/
theorem loadEntry_skips_existing_witness :
    loadEntry "save" (fun _ => true) (some true) [EntryEffect.fetch "http://ex.org/i.png"]
      true ⟨"entry-1", some ⟨2024, 1, 2, 3, 4, 5⟩, some 99, some "Title",
        [⟨"http://ex.org/article", some "text/html"⟩], some "<p>body</p>", none⟩ =
      (.ok (), []) :=
  loadEntry_skips_existing "save" (fun _ => true) (some true)
    [EntryEffect.fetch "http://ex.org/i.png"] true
    ⟨"entry-1", some ⟨2024, 1, 2, 3, 4, 5⟩, some 99, some "Title",
      [⟨"http://ex.org/article", some "text/html"⟩], some "<p>body</p>", none⟩ rfl

end PlatoFeed
